import Mathlib

/-!
Verification of the cppkit repository: a shallow embedding of the
contract-assertion library (`asrt.h` / `assert.hpp` + `assert.cpp`) and of the
task-graph utility (`cppkit/TaskGraph.hpp`), together with proofs about the
spec's claims.

Modelling conventions:
* C++ `int` channel identifiers are `Int`; the four channels are 0..3.
* The per-channel handler stacks (`std::vector<ErrorHandler> handlers_[CHAN_COUNT_]`)
  are a total function `Int → List Handler` where the list head is the vector's
  back, i.e. the most recently pushed (active) handler.
* A C++ `assert` that fails (checked build) halts the program; operations guarded
  by asserts are modelled with `Except Unit`, `.error ()` being the halt.
* An error handler is a function of the four diagnostic fields into
  `HandlerEffect`, a datatype of observable behaviours (`throwLogicError msg`
  models `throw std::logic_error(msg)`; a handler that does not escalate can
  return `observed`/`noEffect`).
* Task objects are identified by their address, modelled as `Nat`; the mutable
  heap of tasks is a total function `Store := Nat → TaskRec`.  Streaming a task
  pointer into an `ostringstream` is modelled as printing the identity in
  decimal.
* `std::unordered_set<Task*> downstreamTasks_` is a `Finset Nat`; where the C++
  code iterates the set, the model iterates it in ascending order (the C++
  iteration order is unspecified and no claim depends on it).
-/

namespace Cppkit

/-! ## Error handling (assert.hpp / assert.cpp) -/

/-- Observable behaviour of an error handler invocation. -/
inductive HandlerEffect : Type
  | throwLogicError (msg : String)
  | observed (file : String) (line : Int) (raw_expr : String) (eval_expr : String)
  | noEffect
deriving DecidableEq

/-- `ErrorHandling::ErrorHandler`: a function of (file, line, raw_expr, eval_expr). -/
abbrev Handler : Type := String → Int → String → String → HandlerEffect

/-- The per-channel handler stacks `handlers_[CHAN_COUNT_]`; the head of the
list is the back of the C++ vector (the active handler). -/
abbrev HStacks : Type := Int → List Handler

def CHAN_ASSERT : Int := 0
def CHAN_CHECK : Int := 1
def CHAN_REQUIRE : Int := 2
def CHAN_ENSURE : Int := 3
def CHAN_COUNT : Int := 4

/-- The lowercase channel names `{"assert", "check", "require", "ensure"}`. -/
def channelName (channel : Int) : String :=
  if channel = 0 then "assert"
  else if channel = 1 then "check"
  else if channel = 2 then "require"
  else if channel = 3 then "ensure"
  else ""

/-- The seeded default handler of a channel: formats
`"<file>:<line>: <channel-name>(<raw-expr>) failed, values (<eval-expr>)"` and
throws `std::logic_error` (cf. `handle_channel_error` in assert.cpp and the
inline `handleError_` of assert.hpp; the 1024-byte `snprintf` buffer of
assert.cpp is modelled as unbounded). -/
def defaultHandler (channel : Int) : Handler := fun file line raw_expr eval_expr =>
  .throwLogicError (file ++ ":" ++ toString line ++ ": " ++ channelName channel ++ "(" ++
    raw_expr ++ ") failed, values (" ++ eval_expr ++ ")")

/-- The process-start state of `handlers_`: each channel's stack is seeded with
exactly its default handler. -/
def initialStacks : HStacks := fun channel => [defaultHandler channel]

/-- `ErrorHandling::pushHandler`: asserts the channel is in range, then pushes. -/
def pushHandler (st : HStacks) (channel : Int) (handler : Handler) :
    Except Unit HStacks :=
  if 0 ≤ channel ∧ channel < CHAN_COUNT then
    .ok (Function.update st channel (handler :: st channel))
  else .error ()

/-- `ErrorHandling::popHandler`: asserts the channel is in range and the stack
holds more than one handler, then pops and returns the popped handler. -/
def popHandler (st : HStacks) (channel : Int) : Except Unit (Handler × HStacks) :=
  if 0 ≤ channel ∧ channel < CHAN_COUNT then
    match st channel with
    | handler :: next :: rest => .ok (handler, Function.update st channel (next :: rest))
    | _ => .error ()
  else .error ()

/-- `ErrorHandling::resetHandler`: asserts the channel is in range, then resets
the stack to exactly one handler (the supplied one, or the compiled-in default
when `NULL` is passed). -/
def resetHandler (st : HStacks) (channel : Int) (handler : Option Handler) :
    Except Unit HStacks :=
  if 0 ≤ channel ∧ channel < CHAN_COUNT then
    .ok (Function.update st channel [handler.getD (defaultHandler channel)])
  else .error ()

/-- `ErrorHandling::handleError_`: asserts the channel is in range and invokes
the active (top-of-stack) handler with the four diagnostic fields.  Calling it
with an empty stack is `back()` on an empty vector, modelled as stuck. -/
def handleError (st : HStacks) (channel : Int) (file : String) (line : Int)
    (raw_expr eval_expr : String) : Except Unit HandlerEffect :=
  if 0 ≤ channel ∧ channel < CHAN_COUNT then
    match st channel with
    | handler :: _ => .ok (handler file line raw_expr eval_expr)
    | [] => .error ()
  else .error ()

/-! ## The predicate-check core (`asrt::detail`) -/

/-- The six relational comparison kinds `ASRT_CMP_EQ .. ASRT_CMP_LE`. -/
inductive CmpOp : Type
  | EQ | NE | GT | GE | LT | LE
deriving DecidableEq

/-- One instantiation of the `RelationalComparision<OP>` template at an operand
type pair: the `valid` predicate, the operator text `str()`, and the
`ostream <<` renderings of the two operand types. -/
structure RelCmp (α β : Type) : Type where
  valid : α → β → Bool
  opStr : String
  showL : α → String
  showR : β → String

/-- `RelationalComparision<OP>::str()`. -/
def cmpStr : CmpOp → String
  | .EQ => "==" | .NE => "!=" | .GT => ">" | .GE => ">=" | .LT => "<" | .LE => "<="

/-- `RelationalComparision<OP>::valid(x, y)` at integer operands. -/
def cmpValidInt : CmpOp → Int → Int → Bool
  | .EQ, x, y => x == y
  | .NE, x, y => x != y
  | .GT, x, y => x > y
  | .GE, x, y => x ≥ y
  | .LT, x, y => x < y
  | .LE, x, y => x ≤ y

/-- The `RelationalComparision<OP>` instance for `int` operands. -/
def intCmp (op : CmpOp) : RelCmp Int Int :=
  ⟨cmpValidInt op, cmpStr op, toString, toString⟩

/-- `asrt::detail::Result<T1, T2>`: the captured operand values. -/
structure CmpResult (α β : Type) : Type where
  x : α
  y : β

/-- `asrt::detail::make_result`. -/
def make_result {α β : Type} (x : α) (y : β) : CmpResult α β := ⟨x, y⟩

/-- `asrt::detail::make_expr_str<OP>(#x, #y)`: raw source text joined by the
operator symbol. -/
def make_expr_str {α β : Type} (rc : RelCmp α β) (x y : String) : String :=
  x ++ " " ++ rc.opStr ++ " " ++ y

/-- `asrt::detail::make_eval_str<OP>(x, y)`: evaluated values joined by the
operator symbol. -/
def make_eval_str {α β : Type} (rc : RelCmp α β) (x : α) (y : β) : String :=
  rc.showL x ++ " " ++ rc.opStr ++ " " ++ rc.showR y

/-- `asrt::detail::binary_assert<OP>`: returns without effect when the predicate
holds, otherwise dispatches through `handleError_`.  `none` models the no-op
return; `some eff` models the handler invocation. -/
def binary_assert {α β : Type} (rc : RelCmp α β) (channel : Int) (st : HStacks)
    (file : String) (line : Int) (expr : String) (result : CmpResult α β) :
    Option (Except Unit HandlerEffect) :=
  if rc.valid result.x result.y then none
  else some (handleError st channel file line expr (make_eval_str rc result.x result.y))

/-- The whole expansion of `ASRT_CHAN_ASSERT_IMPL(CHAN, OP, x, y)` with
side-effecting operands: each operand is a state transformer evaluated exactly
once (by `make_result((x), (y))`); the stringifications `#x`/`#y` are the
unevaluated raw texts.  Returns the final state and the check's observable
result. -/
def runBinaryCheck {S α β : Type} (rc : RelCmp α β) (channel : Int) (st : HStacks)
    (file : String) (line : Int) (rawx rawy : String)
    (ex : S → S × α) (ey : S → S × β) (s : S) :
    S × Option (Except Unit HandlerEffect) :=
  let p1 := ex s
  let p2 := ey p1.1
  (p2.1, binary_assert rc channel st file line (make_expr_str rc rawx rawy)
    (make_result p1.2 p2.2))

/-- `bool` promoted to `int` (C++ integral promotion), as used when the
`<CHAN>_TRUE/<CHAN>_FALSE` macros compare an integer operand against the
literal `true`/`false`. -/
def boolPromoteInt (b : Bool) : Int := if b then 1 else 0

/-- C++ boolean conversion of an integer ([conv.bool]): nonzero is `true`. -/
def cppIntToBool (x : Int) : Bool := x != 0

/-- `ASRT_CHAN_ASSERT_TRUE(CHAN, x)` at an integer operand: expands to
`ASRT_CHAN_ASSERT_IMPL(CHAN, EQ, x, true)`, so the comparison is `x == true`
with `true` promoted to `1`. -/
def chanAssertTrue (channel : Int) (st : HStacks) (file : String) (line : Int)
    (raw : String) (x : Int) : Option (Except Unit HandlerEffect) :=
  binary_assert (intCmp .EQ) channel st file line
    (make_expr_str (intCmp .EQ) raw "true") (make_result x (boolPromoteInt true))

/-- `ASRT_CHAN_ASSERT_FALSE(CHAN, x)` at an integer operand: expands to
`ASRT_CHAN_ASSERT_IMPL(CHAN, EQ, x, false)`. -/
def chanAssertFalse (channel : Int) (st : HStacks) (file : String) (line : Int)
    (raw : String) (x : Int) : Option (Except Unit HandlerEffect) :=
  binary_assert (intCmp .EQ) channel st file line
    (make_expr_str (intCmp .EQ) raw "false") (make_result x (boolPromoteInt false))

/-- A counter-incrementing left operand (the observable-side-effect operand of
the spec's evaluate-once test). -/
def incFst (s : Nat × Nat) : (Nat × Nat) × Int := ((s.1 + 1, s.2), 1)

/-- A counter-incrementing right operand. -/
def incSnd (s : Nat × Nat) : (Nat × Nat) × Int := ((s.1, s.2 + 1), 2)

/-! ## Task graph (cppkit/TaskGraph.hpp, the plain `TaskGraph<>` variant) -/

/-- Ascending enumeration of a `Finset Nat` (the model of iterating a C++
`unordered_set`/`unordered_map`, whose order is unspecified). -/
def finsetAsc (s : Finset Nat) : List Nat :=
  Quot.liftOn s.val (fun l => l.insertionSort (· ≤ ·)) (fun a b hab =>
    List.eq_of_perm_of_sorted
      ((List.perm_insertionSort _ a).trans
        ((Quotient.exact (Quot.sound hab)).trans (List.perm_insertionSort _ b).symm))
      (List.sorted_insertionSort _ a)
      (List.sorted_insertionSort _ b))

theorem mem_finsetAsc (s : Finset Nat) (v : Nat) : v ∈ finsetAsc s ↔ v ∈ s := by
  rcases s with ⟨m, hm⟩
  induction m using Quot.ind with
  | mk l =>
    show v ∈ l.insertionSort (· ≤ ·) ↔ _
    rw [(List.perm_insertionSort (· ≤ ·) l).mem_iff]
    rfl

theorem nodup_finsetAsc (s : Finset Nat) : (finsetAsc s).Nodup := by
  rcases s with ⟨m, hm⟩
  induction m using Quot.ind with
  | mk l => exact (List.perm_insertionSort (· ≤ ·) l).nodup_iff.mpr hm

/-- The mutable fields of one `cppkit::Task<>` object: the diagnostic `id()`,
the declared upstream count `upstreamCount_` (an `int` that starts at 0 and is
only ever incremented, hence a `Nat`), and the downstream set
`downstreamTasks_` of task addresses. -/
structure TaskRec : Type where
  name : String
  upstreamCount : Nat
  downstream : Finset Nat
deriving DecidableEq

instance : Inhabited TaskRec := ⟨⟨"", 0, ∅⟩⟩

/-- The heap of task objects, addressed by identity. -/
abbrev Store : Type := Nat → TaskRec

/-- `Task::addDownstreamTask(t)` with `this = a`, `t = b`: if `b` is not yet in
`a`'s downstream set, insert it and increment `b`'s declared upstream count. -/
def addDownstreamTask (σ : Store) (a b : Nat) : Store :=
  if b ∈ (σ a).downstream then σ
  else
    let σ1 := Function.update σ a
      { σ a with downstream := insert b (σ a).downstream }
    Function.update σ1 b
      { σ1 b with upstreamCount := (σ1 b).upstreamCount + 1 }

/-- `Task::addUpstreamTask(t)` with `this = b`, `t = a`: if `this` is not yet in
`t`'s downstream set, insert it and increment `this`'s declared upstream
count. -/
def addUpstreamTask (σ : Store) (b a : Nat) : Store :=
  if b ∈ (σ a).downstream then σ
  else
    let σ1 := Function.update σ a
      { σ a with downstream := insert b (σ a).downstream }
    Function.update σ1 b
      { σ1 b with upstreamCount := (σ1 b).upstreamCount + 1 }

/-- `cppkit::TaskGraph<>`: the (single, tag-0) bucket of registered task
addresses in registration order, and the separate total counter `taskCount_`. -/
structure TaskGraph : Type where
  tasks : List Nat
  taskCount : Nat
deriving DecidableEq

/-- `TaskGraph::addTask`. -/
def addTask (g : TaskGraph) (t : Nat) : TaskGraph :=
  { tasks := g.tasks ++ [t], taskCount := g.taskCount + 1 }

/-- `TaskGraph::clear`. -/
def TaskGraph.clear (_g : TaskGraph) : TaskGraph := { tasks := [], taskCount := 0 }

/-- A freshly constructed (empty) `TaskGraph`. -/
def emptyGraph : TaskGraph := { tasks := [], taskCount := 0 }

/-- The first phase of `validate` builds `std::unordered_map<Task*, int> counts`:
every registered task gets an entry (defaulting to 0) and every downstream
occurrence increments the target's entry.  The map is modelled as its key set
together with a total value function (values at non-keys are unread junk). -/
def buildCounts (σ : Store) : List Nat → Finset Nat × (Nat → Int) →
    Finset Nat × (Nat → Int)
  | [], acc => acc
  | t :: ts, acc =>
    let acc1 : Finset Nat × (Nat → Int) := (insert t acc.1, acc.2)
    buildCounts σ ts
      ((finsetAsc (σ t).downstream).foldl
        (fun a d => (insert d a.1, Function.update a.2 d (a.2 d + 1))) acc1)

/-- The diagnostic fragment streamed for one invalid-upstream-count defect:
`"Invalid upstream count for '" << id << "@" << ptr << "': claimed " << claimed
<< ", real " << real`. -/
def mismatchMsg (σ : Store) (real : Int) (t : Nat) : String :=
  "Invalid upstream count for '" ++ (σ t).name ++ "@" ++ toString t ++
    "': claimed " ++ toString (σ t).upstreamCount ++ ", real " ++ toString real

/-- Decrement `--counts[d]` on the modelled map: `operator[]` inserts a zero
entry when the key is absent. -/
def decrCount (K : Finset Nat) (cnt : Nat → Int) (d : Nat) :
    Finset Nat × (Nat → Int) × Int :=
  let c := (if d ∈ K then cnt d else 0) - 1
  (insert d K, Function.update cnt d c, c)

/-- The inner loop of the pseudo-schedule: for each downstream task `d` of the
dequeued task, decrement its live counter; report `d` (".error d") when the
counter goes negative, push `d` at the back of the ready queue when it reaches
exactly zero. -/
def processDownstream (σ : Store) :
    List Nat → List Nat → Finset Nat → (Nat → Int) →
    Except Nat (List Nat × Finset Nat × (Nat → Int))
  | [], ready, K, cnt => .ok (ready, K, cnt)
  | d :: ds, ready, K, cnt =>
    let r := decrCount K cnt d
    if r.2.2 < 0 then .error d
    else if r.2.2 = 0 then processDownstream σ ds (ready ++ [d]) r.1 r.2.1
    else processDownstream σ ds ready r.1 r.2.1

/-- The diagnostic listing the tasks with a still-positive live counter when
the ready queue empties early. -/
def stuckMsg (σ : Store) (K : Finset Nat) (cnt : Nat → Int) : String :=
  "The task graph is cyclic: at least one cycle exists in [" ++
    String.intercalate ", "
      (((finsetAsc K).filter (fun v => 0 < cnt v)).map
        (fun v => "'" ++ (σ v).name ++ "@" ++ toString v ++ "'")) ++ "]"

/-- The diagnostic for a task whose live counter went negative. -/
def negativeMsg (σ : Store) (d : Nat) : String :=
  "The task graph is cyclic: task '" ++ (σ d).name ++ "@" ++ toString d ++
    "' is in a cycle."

/-- The `for (size_t i = 0; i < taskCount(); i++)` pseudo-scheduling loop of
`validate`.  This is called with `fuel = tasksTodo = taskCount()`; each
iteration dequeues the front of the ready queue and processes its downstream
set (in ascending order, cf. the modelling conventions). -/
def kahnLoop (σ : Store) (diagnostics : Bool) :
    Nat → List Nat → Finset Nat → (Nat → Int) → Nat → Bool × String
  | 0, _ready, _K, _cnt, tasksTodo =>
    if 0 < tasksTodo then
      (false, if diagnostics then
        "The task graph is cyclic: still tasks after taskCount schedules." else "")
    else (true, "")
  | fuel + 1, ready, K, cnt, tasksTodo =>
    match ready with
    | [] => (false, if diagnostics then stuckMsg σ K cnt else "")
    | t :: rest =>
      match processDownstream σ (finsetAsc (σ t).downstream) rest K cnt with
      | .error d => (false, if diagnostics then negativeMsg σ d else "")
      | .ok (ready', K', cnt') =>
        kahnLoop σ diagnostics fuel ready' K' cnt' (tasksTodo - 1)

/-- The registered tasks whose declared upstream count disagrees with the
`counts` map recomputed by `validate`'s first phase. -/
def mismatchList (σ : Store) (g : TaskGraph) : List Nat :=
  g.tasks.filter
    (fun t => ((σ t).upstreamCount : Int) ≠ (buildCounts σ g.tasks (∅, fun _ => 0)).2 t)

/-- `TaskGraph::validate(diagnostics)`: (1) recompute every task's real incoming
edge count and compare with the declared upstream count, reporting every
mismatching task; (2) require at least one source (zero declared upstream
count); (3) require at least one sink (empty downstream set); (4) run the
pseudo-schedule to detect cycles, seeded with the sources and with the `counts`
map (its key set unchanged) reset to the declared upstream counts. -/
def validate (σ : Store) (g : TaskGraph) (diagnostics : Bool) : Bool × String :=
  if (mismatchList σ g).isEmpty then
    if (g.tasks.filter (fun t => (σ t).upstreamCount = 0)).isEmpty then
      (false, if diagnostics then
        "The task graph is cyclic: there exist no source tasks." else "")
    else
      if (g.tasks.filter (fun t => (σ t).downstream = ∅)).length = 0 then
        (false, if diagnostics then
          "The task graph is cyclic: there exist no sink tasks." else "")
      else
        kahnLoop σ diagnostics g.taskCount
          (g.tasks.filter (fun t => (σ t).upstreamCount = 0))
          (buildCounts σ g.tasks (∅, fun _ => 0)).1
          (fun v => if v ∈ (buildCounts σ g.tasks (∅, fun _ => 0)).1
            then ((σ v).upstreamCount : Int)
            else (buildCounts σ g.tasks (∅, fun _ => 0)).2 v)
          g.taskCount
  else
    (false, if diagnostics then
      String.join ((mismatchList σ g).map
        (fun t => mismatchMsg σ ((buildCounts σ g.tasks (∅, fun _ => 0)).2 t) t))
      else "")

/-- The number of distinct incoming downstream edges a task `t` receives from
the registered tasks (distinct when the registration list has no duplicates). -/
def realUpstreamCount (σ : Store) (g : TaskGraph) (t : Nat) : Nat :=
  g.tasks.countP (fun s => t ∈ (σ s).downstream)

/-- The directed edge relation of the graph formed by the downstream links over
the registered tasks. -/
def Edge (σ : Store) (g : TaskGraph) (a b : Nat) : Prop :=
  a ∈ g.tasks ∧ b ∈ g.tasks ∧ b ∈ (σ a).downstream

/-- The downstream-link digraph over the registered tasks is acyclic. -/
def Acyclic (σ : Store) (g : TaskGraph) : Prop :=
  ∀ t : Nat, ¬ Relation.TransGen (Edge σ g) t t

/-- The in-degree of `t` in the downstream-link digraph over the task list `V`:
how many tasks of `V` list `t` among their downstream tasks. -/
def indeg (σ : Store) (V : List Nat) (t : Nat) : Nat :=
  V.countP (fun s => t ∈ (σ s).downstream)

/-- The downstream-link edge relation over an explicit task list. -/
def EdgeL (σ : Store) (V : List Nat) (a b : Nat) : Prop :=
  a ∈ V ∧ b ∈ V ∧ b ∈ (σ a).downstream

/-- The invariant of the pseudo-scheduling loop, relating the loop state
(ready queue `R`, key set `K`, live counters `cnt`) to the list `D` of already
dequeued tasks. -/
structure KInv (σ : Store) (V : List Nat) (D R : List Nat) (K : Finset Nat)
    (cnt : Nat → Int) : Prop where
  subD : ∀ v ∈ D, v ∈ V
  subR : ∀ v ∈ R, v ∈ V
  nodup : (D ++ R).Nodup
  cnt_eq : ∀ v ∈ V, cnt v =
    (indeg σ V v : Int) - (D.countP (fun s => v ∈ (σ s).downstream) : Int)
  mem_iff : ∀ v ∈ V, (v ∈ D ∨ v ∈ R) ↔ cnt v = 0
  inK : ∀ v ∈ V, v ∈ K

/-! ## Helper lemmas about the task-graph model -/

theorem foldlCounts_snd (l : List Nat) (K : Finset Nat) (f : Nat → Int) (v : Nat) :
    (l.foldl (fun a d => (insert d a.1, Function.update a.2 d (a.2 d + 1))) (K, f)).2 v
      = f v + (l.count v : Int) := by
  induction l generalizing K f with
  | nil => simp
  | cons d ds ih =>
    rw [List.foldl_cons, ih]
    by_cases hv : v = d
    · subst hv
      simp [Function.update_same, List.count_cons]
      ring
    · simp [Function.update_noteq hv, List.count_cons, hv]

theorem foldlCounts_fst (l : List Nat) (K : Finset Nat) (f : Nat → Int) (v : Nat) :
    v ∈ (l.foldl (fun a d => (insert d a.1, Function.update a.2 d (a.2 d + 1))) (K, f)).1
      ↔ v ∈ K ∨ v ∈ l := by
  induction l generalizing K f with
  | nil => simp
  | cons d ds ih =>
    rw [List.foldl_cons, ih]
    simp [Finset.mem_insert, List.mem_cons, or_assoc]
    tauto

theorem buildCounts_snd (σ : Store) (l : List Nat) (K : Finset Nat) (f : Nat → Int)
    (v : Nat) :
    (buildCounts σ l (K, f)).2 v
      = f v + (l.countP (fun s => v ∈ (σ s).downstream) : Int) := by
  induction l generalizing K f with
  | nil => simp [buildCounts]
  | cons t ts ih =>
    rw [buildCounts]
    rcases hfd : (finsetAsc (σ t).downstream).foldl
        (fun a d => (insert d a.1, Function.update a.2 d (a.2 d + 1)))
        (insert t K, f) with ⟨K1, f1⟩
    have h2 := foldlCounts_snd (finsetAsc (σ t).downstream) (insert t K) f v
    rw [hfd] at h2
    have hval : f1 v = f v + (if v ∈ (σ t).downstream then (1 : Int) else 0) := by
      by_cases hm : v ∈ (σ t).downstream
      · rw [if_pos hm]
        rw [List.count_eq_one_of_mem (nodup_finsetAsc (σ t).downstream)
            ((mem_finsetAsc _ _).mpr hm)] at h2
        exact_mod_cast h2
      · rw [if_neg hm]
        rw [List.count_eq_zero_of_not_mem (fun hc => hm ((mem_finsetAsc _ _).mp hc))] at h2
        simpa using h2
    rw [ih K1 f1, hval, List.countP_cons]
    by_cases hm : v ∈ (σ t).downstream
    · simp [hm]
      ring
    · simp [hm]

theorem mem_buildCounts_fst_of_mem (σ : Store) (l : List Nat) (K : Finset Nat)
    (f : Nat → Int) (v : Nat) (hv : v ∈ K ∨ v ∈ l) :
    v ∈ (buildCounts σ l (K, f)).1 := by
  induction l generalizing K f with
  | nil => simpa using hv.resolve_right (by simp)
  | cons t ts ih =>
    rw [buildCounts]
    rcases hfd : (finsetAsc (σ t).downstream).foldl
        (fun a d => (insert d a.1, Function.update a.2 d (a.2 d + 1)))
        (insert t K, f) with ⟨K1, f1⟩
    have hK1 : ∀ w, w ∈ insert t K → w ∈ K1 := by
      intro w hw
      have h3 := (foldlCounts_fst (finsetAsc (σ t).downstream) (insert t K) f w).2
        (Or.inl hw)
      rw [hfd] at h3
      exact h3
    rcases hv with hv | hv
    · exact ih K1 f1 (Or.inl (hK1 v (Finset.mem_insert_of_mem hv)))
    · rcases List.mem_cons.1 hv with rfl | hv
      · exact ih K1 f1 (Or.inl (hK1 v (Finset.mem_insert_self v K)))
      · exact ih K1 f1 (Or.inr hv)

theorem mismatchList_eq (σ : Store) (g : TaskGraph) :
    mismatchList σ g =
      g.tasks.filter (fun t => (σ t).upstreamCount ≠ realUpstreamCount σ g t) := by
  unfold mismatchList realUpstreamCount
  apply List.filter_congr
  intro t _
  have h := buildCounts_snd σ g.tasks ∅ (fun _ => 0) t
  rw [h]
  simp

theorem addUpstream_eq_addDownstream (σ : Store) (a b : Nat) :
    addUpstreamTask σ b a = addDownstreamTask σ a b := rfl

theorem addDownstreamTask_of_mem (σ : Store) (a b : Nat)
    (h : b ∈ (σ a).downstream) : addDownstreamTask σ a b = σ := by
  unfold addDownstreamTask
  rw [if_pos h]

theorem mem_downstream_addDownstreamTask (σ : Store) (a b : Nat) (hab : a ≠ b) :
    b ∈ ((addDownstreamTask σ a b) a).downstream := by
  unfold addDownstreamTask
  by_cases hb : b ∈ (σ a).downstream
  · rw [if_pos hb]; exact hb
  · rw [if_neg hb]
    rw [Function.update_noteq hab, Function.update_same]
    exact Finset.mem_insert_self b _

theorem transGen_exists_step {α : Type} {r : α → α → Prop} {a b : α}
    (h : Relation.TransGen r a b) : ∃ c, r a c := by
  induction h with
  | single h => exact ⟨_, h⟩
  | tail _ _ ih => exact ih

theorem countP_le_countP_of_nodup_subset (p : Nat → Bool) (D V : List Nat)
    (hD : D.Nodup) (hsub : ∀ x ∈ D, x ∈ V) : D.countP p ≤ V.countP p := by
  rw [List.countP_eq_length_filter, List.countP_eq_length_filter]
  calc (D.filter p).length = (D.filter p).toFinset.card :=
        (List.toFinset_card_of_nodup (hD.filter p)).symm
    _ ≤ (V.filter p).toFinset.card := by
        apply Finset.card_le_card
        intro x hx
        rw [List.mem_toFinset] at hx ⊢
        rw [List.mem_filter] at hx ⊢
        exact ⟨hsub x hx.1, hx.2⟩
    _ ≤ (V.filter p).length := List.toFinset_card_le _

theorem mem_of_countP_eq (p : Nat → Bool) (D V : List Nat)
    (hD : D.Nodup) (hsub : ∀ x ∈ D, x ∈ V)
    (heq : D.countP p = V.countP p) : ∀ s ∈ V, p s → s ∈ D := by
  intro s hs hps
  by_contra hsD
  have hlt : D.countP p < V.countP p := by
    rw [List.countP_eq_length_filter, List.countP_eq_length_filter]
    have hss : (D.filter p).toFinset ⊂ (V.filter p).toFinset := by
      constructor
      · intro x hx
        rw [List.mem_toFinset] at hx ⊢
        rw [List.mem_filter] at hx ⊢
        exact ⟨hsub x hx.1, hx.2⟩
      · intro hVs
        have := hVs (by rw [List.mem_toFinset, List.mem_filter]; exact ⟨hs, hps⟩)
        rw [List.mem_toFinset, List.mem_filter] at this
        exact hsD this.1
    calc (D.filter p).length = (D.filter p).toFinset.card :=
          (List.toFinset_card_of_nodup (hD.filter p)).symm
      _ < (V.filter p).toFinset.card := Finset.card_lt_card hss
      _ ≤ (V.filter p).length := List.toFinset_card_le _
  omega

theorem exists_notmem_of_countP_lt (p : Nat → Bool) (D V : List Nat)
    (hV : V.Nodup) (h : D.countP p < V.countP p) :
    ∃ s ∈ V, p s ∧ s ∉ D := by
  by_contra hall
  push_neg at hall
  have : V.countP p ≤ D.countP p := by
    rw [List.countP_eq_length_filter, List.countP_eq_length_filter]
    calc (V.filter p).length = (V.filter p).toFinset.card :=
          (List.toFinset_card_of_nodup (hV.filter p)).symm
      _ ≤ (D.filter p).toFinset.card := by
          apply Finset.card_le_card
          intro x hx
          rw [List.mem_toFinset] at hx ⊢
          rw [List.mem_filter] at hx ⊢
          exact ⟨hall x hx.1 hx.2, hx.2⟩
      _ ≤ (D.filter p).length := List.toFinset_card_le _
  omega

theorem KInv.cnt_nonneg {σ : Store} {V D R : List Nat} {K : Finset Nat}
    {cnt : Nat → Int} (hinv : KInv σ V D R K cnt) {v : Nat} (hv : v ∈ V) :
    0 ≤ cnt v := by
  rw [hinv.cnt_eq v hv]
  have hle := countP_le_countP_of_nodup_subset
    (fun s => decide (v ∈ (σ s).downstream)) D V
    ((List.nodup_append.1 hinv.nodup).1) hinv.subD
  have : D.countP (fun s => decide (v ∈ (σ s).downstream)) ≤ indeg σ V v := hle
  omega

/-- If a task is already dequeued or ready, then all of its in-neighbours in
`V` have been dequeued. -/
theorem KInv.inNbrs_dequeued {σ : Store} {V D R : List Nat} {K : Finset Nat}
    {cnt : Nat → Int} (hinv : KInv σ V D R K cnt) {v : Nat}
    (hv : v ∈ V) (hmem : v ∈ D ∨ v ∈ R) :
    ∀ s ∈ V, v ∈ (σ s).downstream → s ∈ D := by
  have h0 : cnt v = 0 := (hinv.mem_iff v hv).1 hmem
  rw [hinv.cnt_eq v hv] at h0
  have heq : D.countP (fun s => decide (v ∈ (σ s).downstream)) =
      V.countP (fun s => decide (v ∈ (σ s).downstream)) := by
    have : (indeg σ V v : Int) =
        (D.countP (fun s => decide (v ∈ (σ s).downstream)) : Int) := by omega
    have h2 : indeg σ V v = D.countP (fun s => decide (v ∈ (σ s).downstream)) := by
      exact_mod_cast this
    exact h2.symm
  intro s hs hvs
  exact mem_of_countP_eq _ D V ((List.nodup_append.1 hinv.nodup).1) hinv.subD
    heq s hs (by simpa using hvs)

/-- Pigeonhole: in a finite nonempty set in which every element has an
`r`-successor inside the set, some element lies on an `r`-cycle. -/
theorem exists_transGen_cycle (r : Nat → Nat → Prop) (U : Finset Nat)
    (hne : U.Nonempty) (hstep : ∀ v ∈ U, ∃ u ∈ U, r v u) :
    ∃ t, Relation.TransGen r t t := by
  classical
  obtain ⟨v0, hv0⟩ := hne
  let f : {v // v ∈ U} → {v // v ∈ U} := fun v =>
    ⟨(hstep v.1 v.2).choose, (hstep v.1 v.2).choose_spec.1⟩
  have hf : ∀ v : {v // v ∈ U}, r v.1 (f v).1 := fun v =>
    (hstep v.1 v.2).choose_spec.2
  let F : Nat → {v // v ∈ U} := fun n => f^[n] ⟨v0, hv0⟩
  have hFs : ∀ n : Nat, r (F n).1 (F (n + 1)).1 := by
    intro n
    have : F (n + 1) = f (F n) := Function.iterate_succ_apply' f n _
    rw [this]
    exact hf (F n)
  have hchain : ∀ i j : Nat, i < j → Relation.TransGen r (F i).1 (F j).1 := by
    intro i j
    induction j with
    | zero => omega
    | succ j ih =>
      intro hij
      rcases Nat.lt_succ_iff_lt_or_eq.1 hij with hlt | rfl
      · exact (ih hlt).tail (hFs j)
      · exact Relation.TransGen.single (hFs _)
  obtain ⟨i, j, hij, hFij⟩ := Finite.exists_ne_map_eq_of_infinite F
  rcases Nat.lt_or_ge i j with hlt | hge
  · exact ⟨(F i).1, by have h2 := hchain i j hlt; rwa [← hFij] at h2⟩
  · have hlt : j < i := by omega
    exact ⟨(F j).1, by have h2 := hchain j i hlt; rwa [hFij] at h2⟩

theorem nodup_append_singleton {xs : List Nat} {d : Nat} (h : xs.Nodup)
    (hd : d ∉ xs) : (xs ++ [d]).Nodup := by
  simp [List.nodup_append, h, hd]

theorem processDownstream_cons (σ : Store) (d : Nat) (L R : List Nat)
    (K : Finset Nat) (cnt : Nat → Int) (hdK : d ∈ K) :
    processDownstream σ (d :: L) R K cnt =
      if cnt d - 1 < 0 then .error d
      else if cnt d - 1 = 0 then
        processDownstream σ L (R ++ [d]) (insert d K) (Function.update cnt d (cnt d - 1))
      else processDownstream σ L R (insert d K) (Function.update cnt d (cnt d - 1)) := by
  conv_lhs => rw [processDownstream]
  simp only [decrCount, if_pos hdK]

/-- Specification of the inner downstream-processing loop: starting from a
partial-step state in which the dequeued task `t` has had the prefix `done` of
its downstream list processed, the loop never reports a negative counter and
reestablishes the loop invariant with `t` appended to the dequeued list. -/
theorem processDownstream_spec (σ : Store) (V : List Nat)
    (hcl : ∀ s ∈ V, ∀ b ∈ (σ s).downstream, b ∈ V)
    (t : Nat) (ht : t ∈ V) (D : List Nat) (hD : ∀ v ∈ D, v ∈ V)
    (L : List Nat) :
    ∀ (done R : List Nat) (K : Finset Nat) (cnt : Nat → Int),
    finsetAsc (σ t).downstream = done ++ L →
    (∀ v ∈ R, v ∈ V) →
    (D ++ t :: R).Nodup →
    (∀ v ∈ V, cnt v = (indeg σ V v : Int)
        - (D.countP (fun s => v ∈ (σ s).downstream) : Int)
        - (if v ∈ done then 1 else 0)) →
    (∀ v ∈ V, (v ∈ D ∨ v = t ∨ v ∈ R) ↔ cnt v = 0) →
    (∀ v ∈ V, v ∈ K) →
    ∃ R' K' cnt', processDownstream σ L R K cnt = .ok (R', K', cnt') ∧
      KInv σ V (D ++ [t]) R' K' cnt' := by
  induction L with
  | nil =>
    intro done R K cnt hsplit hR hnd hcnt hmem hK
    rw [List.append_nil] at hsplit
    refine ⟨R, K, cnt, rfl, ?_⟩
    constructor
    · intro v hv
      rcases List.mem_append.1 hv with hv | hv
      · exact hD v hv
      · rw [List.mem_singleton] at hv; subst hv; exact ht
    · exact hR
    · simpa [List.append_assoc] using hnd
    · intro v hv
      rw [hcnt v hv, List.countP_append]
      have hdone : (v ∈ done) ↔ v ∈ (σ t).downstream := by
        rw [← hsplit]; exact mem_finsetAsc _ v
      by_cases hm : v ∈ (σ t).downstream
      · rw [if_pos (hdone.mpr hm)]
        simp [hm]
        ring
      · rw [if_neg (fun hc => hm (hdone.mp hc))]
        simp [hm]
    · intro v hv
      rw [← hmem v hv]
      simp [List.mem_append, or_assoc]
    · exact hK
  | cons d L2 ih =>
    intro done R K cnt hsplit hR hnd hcnt hmem hK
    have hdds : d ∈ (σ t).downstream := by
      have : d ∈ finsetAsc (σ t).downstream := by rw [hsplit]; simp
      exact (mem_finsetAsc _ _).1 this
    have hdV : d ∈ V := hcl t ht d hdds
    have hdK : d ∈ K := hK d hdV
    have hndasc := nodup_finsetAsc (σ t).downstream
    rw [hsplit] at hndasc
    have hddone : d ∉ done := by
      intro hd
      rcases List.nodup_append.1 hndasc with ⟨_, _, hdis⟩
      exact hdis hd (by simp)
    have hcntd : cnt d = (indeg σ V d : Int)
        - (D.countP (fun s => decide (d ∈ (σ s).downstream)) : Int) := by
      rw [hcnt d hdV, if_neg hddone]
      ring
    have htD : t ∉ D := by
      rcases List.nodup_append.1 hnd with ⟨_, _, hdis⟩
      exact fun ht' => hdis ht' (by simp)
    have hDnd : D.Nodup := ((List.nodup_append.1 hnd).1)
    have hnDt : (D ++ [t]).Nodup := nodup_append_singleton hDnd htD
    have hDtV : ∀ v ∈ D ++ [t], v ∈ V := by
      intro v hv
      rcases List.mem_append.1 hv with hv | hv
      · exact hD v hv
      · rw [List.mem_singleton] at hv; subst hv; exact ht
    have hnn : 0 ≤ cnt d := by
      have hle := countP_le_countP_of_nodup_subset
        (fun s => decide (d ∈ (σ s).downstream)) D V hDnd hD
      have hle2 : D.countP (fun s => decide (d ∈ (σ s).downstream)) ≤ indeg σ V d := hle
      rw [hcntd]
      omega
    have hne0 : cnt d ≠ 0 := by
      intro h0
      have heq : (D.countP (fun s => decide (d ∈ (σ s).downstream)) : Int)
          = (indeg σ V d : Int) := by
        rw [hcntd] at h0
        omega
      have hle := countP_le_countP_of_nodup_subset
        (fun s => decide (d ∈ (σ s).downstream)) (D ++ [t]) V hnDt hDtV
      have hsum : (D ++ [t]).countP (fun s => decide (d ∈ (σ s).downstream)) =
          D.countP (fun s => decide (d ∈ (σ s).downstream)) + 1 := by
        rw [List.countP_append]
        simp [hdds]
      have hle2 : (D ++ [t]).countP (fun s => decide (d ∈ (σ s).downstream))
          ≤ indeg σ V d := hle
      omega
    have hd1 : 1 ≤ cnt d := by omega
    have hdnot : ¬ (d ∈ D ∨ d = t ∨ d ∈ R) := by
      rw [hmem d hdV]
      omega
    rw [processDownstream_cons σ d L2 R K cnt hdK]
    rw [if_neg (by omega : ¬ cnt d - 1 < 0)]
    have hsplit2 : finsetAsc (σ t).downstream = (done ++ [d]) ++ L2 := by
      rw [hsplit]; simp
    by_cases hone : cnt d - 1 = 0
    · rw [if_pos hone]
      apply ih (done ++ [d]) (R ++ [d]) (insert d K) (Function.update cnt d (cnt d - 1))
        hsplit2
      · intro v hv
        rcases List.mem_append.1 hv with hv | hv
        · exact hR v hv
        · rw [List.mem_singleton] at hv; subst hv; exact hdV
      · have hlist : D ++ t :: (R ++ [d]) = (D ++ t :: R) ++ [d] := by simp
        rw [hlist]
        apply nodup_append_singleton hnd
        intro hdm
        apply hdnot
        rcases List.mem_append.1 hdm with hv | hv
        · exact Or.inl hv
        · rcases List.mem_cons.1 hv with hv | hv
          · exact Or.inr (Or.inl hv)
          · exact Or.inr (Or.inr hv)
      · intro v hv
        by_cases hvd : v = d
        · subst hvd
          rw [Function.update_same, if_pos (by simp)]
          rw [hcntd]
        · rw [Function.update_noteq hvd, hcnt v hv]
          have : (v ∈ done ++ [d]) ↔ v ∈ done := by simp [hvd]
          rw [if_congr this rfl rfl]
      · intro v hv
        by_cases hvd : v = d
        · subst hvd
          simp [Function.update_same, hone]
        · rw [Function.update_noteq hvd, ← hmem v hv]
          simp [hvd]
      · intro v hv
        exact Finset.mem_insert_of_mem (hK v hv)
    · rw [if_neg hone]
      apply ih (done ++ [d]) R (insert d K) (Function.update cnt d (cnt d - 1))
        hsplit2 hR hnd
      · intro v hv
        by_cases hvd : v = d
        · subst hvd
          rw [Function.update_same, if_pos (by simp)]
          rw [hcntd]
        · rw [Function.update_noteq hvd, hcnt v hv]
          have : (v ∈ done ++ [d]) ↔ v ∈ done := by simp [hvd]
          rw [if_congr this rfl rfl]
      · intro v hv
        by_cases hvd : v = d
        · subst hvd
          rw [Function.update_same]
          constructor
          · intro h; exact absurd h hdnot
          · intro h; omega
        · rw [Function.update_noteq hvd]
          exact hmem v hv
      · intro v hv
        exact Finset.mem_insert_of_mem (hK v hv)

/-- One dequeue step: with the invariant holding and `t` at the front of the
ready queue, processing `t`'s downstream set succeeds (no negative counter) and
reestablishes the invariant. -/
theorem kahn_step (σ : Store) (V : List Nat)
    (hcl : ∀ s ∈ V, ∀ b ∈ (σ s).downstream, b ∈ V)
    (t : Nat) (R0 D : List Nat) (K : Finset Nat) (cnt : Nat → Int)
    (hinv : KInv σ V D (t :: R0) K cnt) :
    ∃ R' K' cnt', processDownstream σ (finsetAsc (σ t).downstream) R0 K cnt
      = .ok (R', K', cnt') ∧ KInv σ V (D ++ [t]) R' K' cnt' := by
  have ht : t ∈ V := hinv.subR t (by simp)
  apply processDownstream_spec σ V hcl t ht D hinv.subD
    (finsetAsc (σ t).downstream) [] R0 K cnt
  · simp
  · intro v hv; exact hinv.subR v (by simp [hv])
  · exact hinv.nodup
  · intro v hv
    rw [hinv.cnt_eq v hv]
    simp
  · intro v hv
    rw [← hinv.mem_iff v hv]
    simp [List.mem_cons]
  · exact hinv.inK

/-- If the downstream digraph over `V` is acyclic, the pseudo-scheduling loop
runs to completion and returns success. -/
theorem kahn_completes (σ : Store) (V : List Nat) (hV : V.Nodup)
    (hcl : ∀ s ∈ V, ∀ b ∈ (σ s).downstream, b ∈ V)
    (hacyc : ∀ x, ¬ Relation.TransGen (EdgeL σ V) x x) (diag : Bool) :
    ∀ (fuel : Nat) (D R : List Nat) (K : Finset Nat) (cnt : Nat → Int),
    KInv σ V D R K cnt → fuel + D.length = V.length →
    kahnLoop σ diag fuel R K cnt fuel = (true, "") := by
  intro fuel
  induction fuel with
  | zero =>
    intro D R K cnt hinv hfuel
    simp [kahnLoop]
  | succ fuel ih =>
    intro D R K cnt hinv hfuel
    rcases R with _ | ⟨t, R0⟩
    · exfalso
      have hDlt : D.length < V.length := by omega
      have hUne : (V.toFinset \ D.toFinset).Nonempty := by
        rw [Finset.sdiff_nonempty]
        intro hsub
        have h1 : V.toFinset.card ≤ D.toFinset.card := Finset.card_le_card hsub
        rw [List.toFinset_card_of_nodup hV] at h1
        have h2 := List.toFinset_card_le D
        omega
      have hstep : ∀ v ∈ V.toFinset \ D.toFinset,
          ∃ u ∈ V.toFinset \ D.toFinset, EdgeL σ V u v := by
        intro v hv
        rw [Finset.mem_sdiff, List.mem_toFinset, List.mem_toFinset] at hv
        have hne0 : cnt v ≠ 0 := by
          intro h0
          rcases (hinv.mem_iff v hv.1).2 h0 with h | h
          · exact hv.2 h
          · simp at h
        have hpos : 0 < cnt v := lt_of_le_of_ne (hinv.cnt_nonneg hv.1) (Ne.symm hne0)
        rw [hinv.cnt_eq v hv.1] at hpos
        have hlt : D.countP (fun s => decide (v ∈ (σ s).downstream)) <
            V.countP (fun s => decide (v ∈ (σ s).downstream)) := by
          have : D.countP (fun s => decide (v ∈ (σ s).downstream)) <
              indeg σ V v := by omega
          exact this
        obtain ⟨s, hsV, hps, hsD⟩ := exists_notmem_of_countP_lt _ D V hV hlt
        refine ⟨s, ?_, hsV, hv.1, by simpa using hps⟩
        rw [Finset.mem_sdiff, List.mem_toFinset, List.mem_toFinset]
        exact ⟨hsV, hsD⟩
      obtain ⟨x, hx⟩ := exists_transGen_cycle (fun a b => EdgeL σ V b a)
        (V.toFinset \ D.toFinset) hUne hstep
      exact hacyc x (Relation.transGen_swap.1 hx)
    · obtain ⟨R', K', cnt', hok, hinv'⟩ := kahn_step σ V hcl t R0 D K cnt hinv
      rw [kahnLoop, hok]
      have hfuel' : fuel + (D ++ [t]).length = V.length := by
        simp only [List.length_append, List.length_singleton]
        omega
      simpa using ih (D ++ [t]) R' K' cnt' hinv' hfuel'

/-- If some nonempty subset `C` of `V` is closed under "has an in-neighbour in
`C`" and is disjoint from the dequeued and ready tasks, the pseudo-scheduling
loop reports failure. -/
theorem kahn_stuck (σ : Store) (V : List Nat) (hV : V.Nodup)
    (hcl : ∀ s ∈ V, ∀ b ∈ (σ s).downstream, b ∈ V)
    (C : Finset Nat) (hCne : C.Nonempty) (hCV : ∀ v ∈ C, v ∈ V)
    (hCin : ∀ v ∈ C, ∃ u ∈ C, v ∈ (σ u).downstream) (diag : Bool) :
    ∀ (fuel : Nat) (D R : List Nat) (K : Finset Nat) (cnt : Nat → Int),
    KInv σ V D R K cnt → fuel + D.length = V.length →
    (∀ v ∈ C, v ∉ D ∧ v ∉ R) →
    (kahnLoop σ diag fuel R K cnt fuel).1 = false := by
  intro fuel
  induction fuel with
  | zero =>
    intro D R K cnt hinv hfuel hdisj
    exfalso
    obtain ⟨c0, hc0⟩ := hCne
    have hc0V := hCV c0 hc0
    have hDnd : D.Nodup := (List.nodup_append.1 hinv.nodup).1
    have hsub : D.toFinset ⊆ V.toFinset := by
      intro x hx
      rw [List.mem_toFinset] at hx ⊢
      exact hinv.subD x hx
    have hcard : V.toFinset.card ≤ D.toFinset.card := by
      rw [List.toFinset_card_of_nodup hV, List.toFinset_card_of_nodup hDnd]
      omega
    have heq : D.toFinset = V.toFinset := Finset.eq_of_subset_of_card_le hsub hcard
    have hc0D : c0 ∈ D := by
      rw [← List.mem_toFinset, heq, List.mem_toFinset]
      exact hc0V
    exact (hdisj c0 hc0).1 hc0D
  | succ fuel ih =>
    intro D R K cnt hinv hfuel hdisj
    rcases R with _ | ⟨t, R0⟩
    · simp [kahnLoop]
    · obtain ⟨R', K', cnt', hok, hinv'⟩ := kahn_step σ V hcl t R0 D K cnt hinv
      rw [kahnLoop, hok]
      have hfuel' : fuel + (D ++ [t]).length = V.length := by
        simp only [List.length_append, List.length_singleton]
        omega
      have hdisj' : ∀ v ∈ C, v ∉ D ++ [t] ∧ v ∉ R' := by
        intro v hv
        have hvD := (hdisj v hv).1
        have hvR := (hdisj v hv).2
        have hvt : v ≠ t := fun hvt => hvR (by simp [hvt])
        have hvDt : v ∉ D ++ [t] := by
          intro hm
          rcases List.mem_append.1 hm with hm | hm
          · exact hvD hm
          · rw [List.mem_singleton] at hm; exact hvt hm
        refine ⟨hvDt, ?_⟩
        intro hvR'
        have hall := hinv'.inNbrs_dequeued (hCV v hv) (Or.inr hvR')
        obtain ⟨u, huC, hu⟩ := hCin v hv
        have huD := hall u (hCV u huC) hu
        rcases List.mem_append.1 huD with hm | hm
        · exact (hdisj u huC).1 hm
        · rw [List.mem_singleton] at hm
          exact (hdisj u huC).2 (by simp [hm])
      simpa using ih (D ++ [t]) R' K' cnt' hinv' hfuel' hdisj'

/-- From a cycle through `a` in the downstream digraph, extract the set of its
vertices: a nonempty subset of `V` in which every vertex has an in-neighbour
inside the set. -/
theorem cycle_set_of_transGen (σ : Store) (V : List Nat) {a b : Nat}
    (h : Relation.TransGen (EdgeL σ V) a b) :
    ∃ C : Finset Nat, b ∈ C ∧ (∀ v ∈ C, v ∈ V) ∧
      ∀ v ∈ C, (∃ u ∈ C, v ∈ (σ u).downstream) ∨ v ∈ (σ a).downstream := by
  induction h with
  | @single c hab =>
    exact ⟨{c}, Finset.mem_singleton_self c,
      fun v hv => by rw [Finset.mem_singleton] at hv; subst hv; exact hab.2.1,
      fun v hv => by rw [Finset.mem_singleton] at hv; subst hv; exact Or.inr hab.2.2⟩
  | @tail c e hab hbc ih =>
    obtain ⟨C, hbC, hCV, hCp⟩ := ih
    refine ⟨insert _ C, Finset.mem_insert_self _ C, ?_, ?_⟩
    · intro v hv
      rcases Finset.mem_insert.1 hv with rfl | hv
      · exact hbc.2.1
      · exact hCV v hv
    · intro v hv
      rcases Finset.mem_insert.1 hv with rfl | hv
      · exact Or.inl ⟨_, Finset.mem_insert_of_mem hbC, hbc.2.2⟩
      · rcases hCp v hv with ⟨u, huC, hu⟩ | hva
        · exact Or.inl ⟨u, Finset.mem_insert_of_mem huC, hu⟩
        · exact Or.inr hva

/-! ## Theorems: the contract-assertion library -/

/-- C2: for every channel and every enabled predicate check, each operand is
evaluated exactly once per invocation, pass or fail: the final state of a check
is the state after applying the left operand's effect and then the right
operand's effect exactly once each (independently of the predicate, the
channel, and the outcome), and in particular counter-incrementing operands
increment their counters by exactly one for every comparison kind. -/
theorem operands_evaluated_exactly_once {S α β : Type} (rc : RelCmp α β)
    (channel : Int) (st : HStacks) (file : String) (line : Int)
    (rawx rawy : String) (ex : S → S × α) (ey : S → S × β) (s : S) :
    (runBinaryCheck rc channel st file line rawx rawy ex ey s).1 = (ey (ex s).1).1 ∧
    (∀ op : CmpOp, ∀ n m : Nat,
      (runBinaryCheck (intCmp op) channel st file line rawx rawy
        incFst incSnd (n, m)).1 = (n + 1, m + 1)) :=
  ⟨rfl, fun _ _ _ => rfl⟩

/-- C3: with integer operands `x = 1`, `y = 2`, the EQ, GT and GE checks fail
and invoke the active handler (here the seeded default), the EQ check's
evaluated-expression text being exactly `"1 == 2"`, while the NE, LT and LE
checks pass and produce no observable effect. -/
theorem checks_on_one_two :
    binary_assert (intCmp .EQ) CHAN_ASSERT initialStacks "t.cpp" 42
        (make_expr_str (intCmp .EQ) "x" "y") (make_result 1 2) =
      some (.ok (.throwLogicError
        "t.cpp:42: assert(x == y) failed, values (1 == 2)")) ∧
    make_eval_str (intCmp .EQ) (1 : Int) 2 = "1 == 2" ∧
    (binary_assert (intCmp .GT) CHAN_ASSERT initialStacks "t.cpp" 42
        (make_expr_str (intCmp .GT) "x" "y") (make_result 1 2)).isSome = true ∧
    (binary_assert (intCmp .GE) CHAN_ASSERT initialStacks "t.cpp" 42
        (make_expr_str (intCmp .GE) "x" "y") (make_result 1 2)).isSome = true ∧
    binary_assert (intCmp .NE) CHAN_ASSERT initialStacks "t.cpp" 42
        (make_expr_str (intCmp .NE) "x" "y") (make_result 1 2) = none ∧
    binary_assert (intCmp .LT) CHAN_ASSERT initialStacks "t.cpp" 42
        (make_expr_str (intCmp .LT) "x" "y") (make_result 1 2) = none ∧
    binary_assert (intCmp .LE) CHAN_ASSERT initialStacks "t.cpp" 42
        (make_expr_str (intCmp .LE) "x" "y") (make_result 1 2) = none := by
  refine ⟨?_, rfl, rfl, rfl, rfl, rfl, rfl⟩
  rfl

/-- C4: with only the seeded default handler on a channel, a failing check
raises a logic-violation error whose message is exactly
`"<file>:<line>: <channel-name>(<raw-expr>) failed, values (<eval-expr>)"`
with the lowercase channel name substituted; the `throwLogicError` effect
models that the check does not return normally. -/
theorem default_handler_raises {α β : Type} (rc : RelCmp α β)
    (res : CmpResult α β) (channel : Int) (file : String) (line : Int)
    (expr : String) (hfail : rc.valid res.x res.y = false)
    (h0 : 0 ≤ channel) (h4 : channel < CHAN_COUNT) :
    binary_assert rc channel initialStacks file line expr res =
      some (.ok (.throwLogicError (file ++ ":" ++ toString line ++ ": " ++
        channelName channel ++ "(" ++ expr ++ ") failed, values (" ++
        make_eval_str rc res.x res.y ++ ")"))) := by
  unfold binary_assert handleError initialStacks defaultHandler
  rw [hfail]
  simp [h0, h4]

/-- C4 witness: a concrete failing EQ check on the ASSERT channel. -/
theorem default_handler_raises_witness :
    (intCmp .EQ).valid (make_result (1 : Int) (2 : Int)).x
        (make_result (1 : Int) (2 : Int)).y = false ∧
    (0 : Int) ≤ CHAN_ASSERT ∧ CHAN_ASSERT < CHAN_COUNT ∧
    binary_assert (intCmp .EQ) CHAN_ASSERT initialStacks "t.cpp" 7 "x == y"
        (make_result 1 2) =
      some (.ok (.throwLogicError ("t.cpp" ++ ":" ++ toString (7 : Int) ++ ": " ++
        channelName CHAN_ASSERT ++ "(" ++ "x == y" ++ ") failed, values (" ++
        make_eval_str (intCmp .EQ) (make_result (1 : Int) (2 : Int)).x
          (make_result (1 : Int) (2 : Int)).y ++ ")"))) :=
  ⟨by decide, by decide, by decide,
    default_handler_raises (intCmp .EQ) (make_result 1 2) CHAN_ASSERT "t.cpp" 7
      "x == y" (by decide) (by decide) (by decide)⟩

/-- C5: pushing a handler `h` onto an in-range channel makes `h` the handler a
failing check dispatches to (with the four diagnostic fields); a subsequent pop
returns `h` and restores the previous stacks, so the next failure invokes the
previously active handler `hA`. -/
theorem push_pop_handler_roundtrip (st : HStacks) (channel : Int) (h hA : Handler)
    (rest : List Handler) (file : String) (line : Int) (raw_expr eval_expr : String)
    (h0 : 0 ≤ channel) (h4 : channel < CHAN_COUNT) (hst : st channel = hA :: rest) :
    pushHandler st channel h = .ok (Function.update st channel (h :: st channel)) ∧
    handleError (Function.update st channel (h :: st channel)) channel
        file line raw_expr eval_expr = .ok (h file line raw_expr eval_expr) ∧
    popHandler (Function.update st channel (h :: st channel)) channel = .ok (h, st) ∧
    handleError st channel file line raw_expr eval_expr =
      .ok (hA file line raw_expr eval_expr) := by
  refine ⟨?_, ?_, ?_, ?_⟩
  · simp [pushHandler, h0, h4]
  · simp [handleError, h0, h4]
  · simp only [popHandler, h0, h4, and_self, if_pos, Function.update_same, hst]
    rw [Function.update_idem]
    rw [show Function.update st channel (hA :: rest) = st from hst ▸ Function.update_eq_self channel st]
  · simp [handleError, h0, h4, hst]

/-- C5 witness: pushing a recording handler on the CHECK channel over the
process-start stacks. -/
theorem push_pop_handler_roundtrip_witness :
    (0 : Int) ≤ CHAN_CHECK ∧ CHAN_CHECK < CHAN_COUNT ∧
    initialStacks CHAN_CHECK = defaultHandler CHAN_CHECK :: [] ∧
    (pushHandler initialStacks CHAN_CHECK (fun f l r e => .observed f l r e) =
      .ok (Function.update initialStacks CHAN_CHECK
        ((fun f l r e => .observed f l r e) :: initialStacks CHAN_CHECK)) ∧
    handleError (Function.update initialStacks CHAN_CHECK
        ((fun f l r e => .observed f l r e) :: initialStacks CHAN_CHECK)) CHAN_CHECK
        "t.cpp" 5 "a < b" "3 < 1" = .ok (.observed "t.cpp" 5 "a < b" "3 < 1") ∧
    popHandler (Function.update initialStacks CHAN_CHECK
        ((fun f l r e => .observed f l r e) :: initialStacks CHAN_CHECK)) CHAN_CHECK =
      .ok ((fun f l r e => .observed f l r e), initialStacks) ∧
    handleError initialStacks CHAN_CHECK "t.cpp" 5 "a < b" "3 < 1" =
      .ok (defaultHandler CHAN_CHECK "t.cpp" 5 "a < b" "3 < 1")) :=
  ⟨by decide, by decide, rfl,
    push_pop_handler_roundtrip initialStacks CHAN_CHECK
      (fun f l r e => .observed f l r e) (defaultHandler CHAN_CHECK) []
      "t.cpp" 5 "a < b" "3 < 1" (by decide) (by decide) rfl⟩

/-- C6: popping the last remaining handler of an in-range channel, and pushing,
popping or resetting with an out-of-range channel identifier, are checked
programming errors that halt (modelled `.error ()`) rather than silently
succeeding. -/
theorem handler_misuse_halts (st : HStacks) (channel : Int) (h : Handler)
    (hOpt : Option Handler) :
    (¬ (0 ≤ channel ∧ channel < CHAN_COUNT) →
      pushHandler st channel h = .error () ∧
      popHandler st channel = .error () ∧
      resetHandler st channel hOpt = .error ()) ∧
    (∀ h1 : Handler, 0 ≤ channel → channel < CHAN_COUNT → st channel = [h1] →
      popHandler st channel = .error ()) := by
  constructor
  · intro hout
    exact ⟨by simp [pushHandler, hout], by simp [popHandler, hout],
      by simp [resetHandler, hout]⟩
  · intro h1 ha hb hst
    simp [popHandler, ha, hb, hst]

/-- C6 witness: channel 5 is rejected everywhere, and popping the seeded
singleton stack of the ASSERT channel is rejected. -/
theorem handler_misuse_halts_witness :
    (¬ ((0 : Int) ≤ 5 ∧ (5 : Int) < CHAN_COUNT)) ∧
    pushHandler initialStacks 5 (defaultHandler 0) = .error () ∧
    popHandler initialStacks CHAN_ASSERT = .error () :=
  ⟨by decide,
    ((handler_misuse_halts initialStacks 5 (defaultHandler 0) none).1 (by decide)).1,
    (handler_misuse_halts initialStacks CHAN_ASSERT (defaultHandler 0) none).2
      (defaultHandler CHAN_ASSERT) (by decide) (by decide) rfl⟩

/-- C9 counterexample: at the integer operand `x = 2` the TRUE check is not a
no-op (it fails, because the macro compares `x == true` and `true` promotes to
`1`), although `2` converts to boolean `true` — so "the TRUE check passes iff
the operand converts to boolean true" is false. -/
theorem true_check_truthiness_counterexample :
    ¬ (((chanAssertTrue CHAN_ASSERT initialStacks "t.cpp" 3 "x" 2).isSome = false) ↔
      cppIntToBool 2 = true) := by
  decide

/-- C9 as amended: for an integer operand, the TRUE check passes iff the operand
equals `1` (the integral promotion of `true`), so converting to boolean true is
necessary but not sufficient; the FALSE check passes iff the operand converts
to boolean false (i.e. equals `0`). -/
theorem unary_checks_amended (channel : Int) (st : HStacks) (file : String)
    (line : Int) (raw : String) (x : Int) :
    ((chanAssertTrue channel st file line raw x).isSome = false ↔ x = 1) ∧
    ((chanAssertFalse channel st file line raw x).isSome = false ↔ x = 0) ∧
    ((chanAssertFalse channel st file line raw x).isSome = false ↔
      cppIntToBool x = false) := by
  unfold chanAssertTrue chanAssertFalse binary_assert cppIntToBool
  refine ⟨?_, ?_, ?_⟩ <;>
    rcases hx : cmpValidInt .EQ x (boolPromoteInt true) with _ | _ <;>
    simp_all [cmpValidInt, intCmp, boolPromoteInt, make_result]

/-- `validate` when some task's upstream count mismatches: failure plus the
concatenated per-task diagnostics, before any source/sink/cycle check. -/
theorem validate_mismatch_eq (σ : Store) (g : TaskGraph) (d : Bool)
    (hne : mismatchList σ g ≠ []) :
    validate σ g d = (false, if d then
      String.join ((mismatchList σ g).map
        (fun t => mismatchMsg σ ((buildCounts σ g.tasks (∅, fun _ => 0)).2 t) t))
      else "") := by
  unfold validate
  rw [if_neg (by simpa [List.isEmpty_iff] using hne)]

/-- The first `validate` check passes exactly when every task's declared
upstream count equals the recomputed real incoming-edge count. -/
theorem counts_ok_iff (σ : Store) (g : TaskGraph) :
    mismatchList σ g = [] ↔
      ∀ t ∈ g.tasks, (σ t).upstreamCount = realUpstreamCount σ g t := by
  rw [mismatchList_eq, List.filter_eq_nil_iff]
  constructor
  · intro h t ht
    have := h t ht
    simpa using this
  · intro h t ht
    simpa using h t ht

/-- `validate` when the counts agree but there is no source task. -/
theorem validate_no_source (σ : Store) (g : TaskGraph) (d : Bool)
    (hok : mismatchList σ g = [])
    (hroots : g.tasks.filter (fun t => (σ t).upstreamCount = 0) = []) :
    validate σ g d = (false, if d then
      "The task graph is cyclic: there exist no source tasks." else "") := by
  unfold validate
  rw [if_pos (by simp [hok]), if_pos (by simp [hroots])]

/-- `validate` when the counts agree, a source exists, but there is no sink. -/
theorem validate_no_sink (σ : Store) (g : TaskGraph) (d : Bool)
    (hok : mismatchList σ g = [])
    (hroots : g.tasks.filter (fun t => (σ t).upstreamCount = 0) ≠ [])
    (hsinks : (g.tasks.filter (fun t => (σ t).downstream = ∅)).length = 0) :
    validate σ g d = (false, if d then
      "The task graph is cyclic: there exist no sink tasks." else "") := by
  unfold validate
  rw [if_pos (by simp [hok]), if_neg (by simpa [List.isEmpty_iff] using hroots),
    if_pos hsinks]

/-- `validate` when all three structural pre-checks pass: it is the
pseudo-scheduling loop on the reset counts map. -/
theorem validate_eq_kahn (σ : Store) (g : TaskGraph) (d : Bool)
    (hok : mismatchList σ g = [])
    (hroots : g.tasks.filter (fun t => (σ t).upstreamCount = 0) ≠ [])
    (hsinks : (g.tasks.filter (fun t => (σ t).downstream = ∅)).length ≠ 0) :
    validate σ g d = kahnLoop σ d g.taskCount
      (g.tasks.filter (fun t => (σ t).upstreamCount = 0))
      (buildCounts σ g.tasks (∅, fun _ => 0)).1
      (fun v => if v ∈ (buildCounts σ g.tasks (∅, fun _ => 0)).1
        then ((σ v).upstreamCount : Int)
        else (buildCounts σ g.tasks (∅, fun _ => 0)).2 v)
      g.taskCount := by
  unfold validate
  rw [if_pos (by simp [hok]), if_neg (by simpa [List.isEmpty_iff] using hroots),
    if_neg hsinks]

/-- The invariant holds at the entry of the pseudo-scheduling loop. -/
theorem initial_KInv (σ : Store) (g : TaskGraph) (hnd : g.tasks.Nodup)
    (hcounts : ∀ t ∈ g.tasks, (σ t).upstreamCount = realUpstreamCount σ g t) :
    KInv σ g.tasks [] (g.tasks.filter (fun t => (σ t).upstreamCount = 0))
      (buildCounts σ g.tasks (∅, fun _ => 0)).1
      (fun v => if v ∈ (buildCounts σ g.tasks (∅, fun _ => 0)).1
        then ((σ v).upstreamCount : Int)
        else (buildCounts σ g.tasks (∅, fun _ => 0)).2 v) := by
  constructor
  · intro v hv
    simp at hv
  · intro v hv
    exact (List.mem_filter.1 hv).1
  · simpa using hnd.filter _
  · intro v hv
    rw [if_pos (mem_buildCounts_fst_of_mem σ g.tasks ∅ (fun _ => 0) v (Or.inr hv))]
    rw [hcounts v hv]
    simp [realUpstreamCount, indeg]
  · intro v hv
    rw [if_pos (mem_buildCounts_fst_of_mem σ g.tasks ∅ (fun _ => 0) v (Or.inr hv))]
    simp [List.mem_filter, hv]
  · intro v hv
    exact mem_buildCounts_fst_of_mem σ g.tasks ∅ (fun _ => 0) v (Or.inr hv)

/-- In a nonempty acyclic graph with consistent counts, some task has zero
declared upstream count. -/
theorem roots_exist (σ : Store) (g : TaskGraph) (hne : g.tasks ≠ [])
    (hcounts : ∀ t ∈ g.tasks, (σ t).upstreamCount = realUpstreamCount σ g t)
    (hacyc : Acyclic σ g) :
    g.tasks.filter (fun t => (σ t).upstreamCount = 0) ≠ [] := by
  intro hroots
  have hall : ∀ t ∈ g.tasks, (σ t).upstreamCount ≠ 0 := by
    intro t ht
    have := List.filter_eq_nil_iff.1 hroots t ht
    simpa using this
  have hstep : ∀ v ∈ g.tasks.toFinset, ∃ u ∈ g.tasks.toFinset, EdgeL σ g.tasks u v := by
    intro v hv
    rw [List.mem_toFinset] at hv
    have hpos : 0 < g.tasks.countP (fun s => decide (v ∈ (σ s).downstream)) := by
      have h1 := hcounts v hv
      have h2 := hall v hv
      rw [h1] at h2
      unfold realUpstreamCount at h2
      omega
    obtain ⟨s, hs, hps⟩ := List.countP_pos_iff.1 hpos
    exact ⟨s, List.mem_toFinset.2 hs, hs, hv, by simpa using hps⟩
  obtain ⟨v0, hv0⟩ := List.exists_mem_of_ne_nil g.tasks hne
  obtain ⟨x, hx⟩ := exists_transGen_cycle (fun a b => EdgeL σ g.tasks b a)
    g.tasks.toFinset ⟨v0, List.mem_toFinset.2 hv0⟩ hstep
  exact hacyc x (Relation.transGen_swap.1 hx)

/-- In a nonempty acyclic graph whose downstream links stay inside the graph,
some task has an empty downstream set. -/
theorem sinks_exist (σ : Store) (g : TaskGraph) (hne : g.tasks ≠ [])
    (hcl : ∀ t ∈ g.tasks, ∀ b ∈ (σ t).downstream, b ∈ g.tasks)
    (hacyc : Acyclic σ g) :
    (g.tasks.filter (fun t => (σ t).downstream = ∅)).length ≠ 0 := by
  intro hsinks
  rw [List.length_eq_zero] at hsinks
  have hall : ∀ t ∈ g.tasks, (σ t).downstream ≠ ∅ := by
    intro t ht
    have := List.filter_eq_nil_iff.1 hsinks t ht
    simpa using this
  have hstep : ∀ v ∈ g.tasks.toFinset, ∃ u ∈ g.tasks.toFinset, EdgeL σ g.tasks v u := by
    intro v hv
    rw [List.mem_toFinset] at hv
    obtain ⟨b, hb⟩ := Finset.nonempty_iff_ne_empty.2 (hall v hv)
    exact ⟨b, List.mem_toFinset.2 (hcl v hv b hb), hv, hcl v hv b hb, hb⟩
  obtain ⟨v0, hv0⟩ := List.exists_mem_of_ne_nil g.tasks hne
  obtain ⟨x, hx⟩ := exists_transGen_cycle (EdgeL σ g.tasks)
    g.tasks.toFinset ⟨v0, List.mem_toFinset.2 hv0⟩ hstep
  exact hacyc x hx

/-! ## Theorems: the task graph -/

/-- C7: adding the same directed edge between a distinct ordered pair a second
time (through either `addDownstreamTask` or the equivalent `addUpstreamTask`)
is a no-op: the whole store is unchanged, so in particular `b`'s declared
upstream count and `a`'s downstream set are unchanged, and `validate` cannot
report an upstream-count mismatch it would not otherwise report. -/
theorem duplicate_edge_idempotent (σ : Store) (a b : Nat) (g : TaskGraph)
    (d : Bool) (hab : a ≠ b) :
    addDownstreamTask (addDownstreamTask σ a b) a b = addDownstreamTask σ a b ∧
    addUpstreamTask (addDownstreamTask σ a b) b a = addDownstreamTask σ a b ∧
    (addDownstreamTask (addDownstreamTask σ a b) a b b).upstreamCount =
      (addDownstreamTask σ a b b).upstreamCount ∧
    (addDownstreamTask (addDownstreamTask σ a b) a b a).downstream =
      (addDownstreamTask σ a b a).downstream ∧
    validate (addDownstreamTask (addDownstreamTask σ a b) a b) g d =
      validate (addDownstreamTask σ a b) g d := by
  have hid : addDownstreamTask (addDownstreamTask σ a b) a b = addDownstreamTask σ a b :=
    addDownstreamTask_of_mem _ a b (mem_downstream_addDownstreamTask σ a b hab)
  refine ⟨hid, ?_, by rw [hid], by rw [hid], by rw [hid]⟩
  rw [addUpstream_eq_addDownstream]
  exact hid

/-- C7 witness: the duplicate edge 0 → 1 over a store of default task records. -/
theorem duplicate_edge_idempotent_witness :
    (0 : Nat) ≠ 1 ∧
    (addDownstreamTask (addDownstreamTask (fun _ => default) 0 1) 0 1 =
        addDownstreamTask (fun _ => default) 0 1 ∧
      addUpstreamTask (addDownstreamTask (fun _ => default) 0 1) 1 0 =
        addDownstreamTask (fun _ => default) 0 1 ∧
      (addDownstreamTask (addDownstreamTask (fun _ => default) 0 1) 0 1 1).upstreamCount =
        (addDownstreamTask (fun _ => default) 0 1 1).upstreamCount ∧
      (addDownstreamTask (addDownstreamTask (fun _ => default) 0 1) 0 1 0).downstream =
        (addDownstreamTask (fun _ => default) 0 1 0).downstream ∧
      validate (addDownstreamTask (addDownstreamTask (fun _ => default) 0 1) 0 1)
          ⟨[0, 1], 2⟩ true =
        validate (addDownstreamTask (fun _ => default) 0 1) ⟨[0, 1], 2⟩ true) :=
  ⟨by decide, duplicate_edge_idempotent (fun _ => default) 0 1 ⟨[0, 1], 2⟩ true
    (by decide)⟩

/-- C10: on an empty graph (never populated, or the result of `clear()`),
`validate` returns failure for every diagnostics flag; with diagnostics
requested the explanation is exactly the no-source-tasks message, although the
empty graph contains no cycle. -/
theorem empty_graph_never_valid (σ : Store) (g : TaskGraph) (d : Bool) :
    (validate σ emptyGraph d).1 = false ∧
    (validate σ emptyGraph true).2 =
      "The task graph is cyclic: there exist no source tasks." ∧
    (validate σ emptyGraph false).2 = "" ∧
    validate σ (TaskGraph.clear g) d = validate σ emptyGraph d ∧
    Acyclic σ emptyGraph := by
  refine ⟨by cases d <;> rfl, rfl, rfl, rfl, ?_⟩
  intro t ht
  obtain ⟨c, hc⟩ := transGen_exists_step ht
  exact absurd hc.1 (by simp [emptyGraph])

/-- C8 counterexample: a two-task graph in which both registered tasks have a
mismatching upstream count.  The returned explanation is the concatenation of
both defect descriptions, not just the description of the first-found
mismatching task — so "validation stops at that first defect" is false as an
observable property of the diagnostic. -/
theorem mismatch_reporting_counterexample :
    (validate (fun n => if n = 0 then ⟨"0", 1, ∅⟩ else if n = 1 then ⟨"1", 1, ∅⟩
        else default) ⟨[0, 1], 2⟩ true).2 ≠
      mismatchMsg (fun n => if n = 0 then ⟨"0", 1, ∅⟩ else if n = 1 then ⟨"1", 1, ∅⟩
        else default) 0 0 := by
  decide

/-- C8 as amended: if any registered task's declared upstream count differs
from the recomputed real count, `validate` returns failure without performing
the source/sink/cycle checks, and the diagnostic (when requested) is the
concatenation, in registration order, of one defect description per mismatching
task — id, address, claimed count and real count — beginning with the
first-found one. -/
theorem mismatch_reported_first (σ : Store) (g : TaskGraph) (d : Bool)
    (hne : mismatchList σ g ≠ []) :
    validate σ g d = (false, if d then
      String.join ((mismatchList σ g).map
        (fun t => mismatchMsg σ ((buildCounts σ g.tasks (∅, fun _ => 0)).2 t) t))
      else "") :=
  validate_mismatch_eq σ g d hne

/-- C8 witness: the two-task graph of the counterexample has a nonempty
mismatch list and produces exactly the concatenated diagnostics. -/
theorem mismatch_reported_first_witness :
    mismatchList (fun n => if n = 0 then ⟨"0", 1, ∅⟩ else if n = 1 then ⟨"1", 1, ∅⟩
        else default) ⟨[0, 1], 2⟩ ≠ [] ∧
    validate (fun n => if n = 0 then ⟨"0", 1, ∅⟩ else if n = 1 then ⟨"1", 1, ∅⟩
        else default) ⟨[0, 1], 2⟩ true = (false,
      String.join ((mismatchList (fun n => if n = 0 then ⟨"0", 1, ∅⟩
          else if n = 1 then ⟨"1", 1, ∅⟩ else default) ⟨[0, 1], 2⟩).map
        (fun t => mismatchMsg (fun n => if n = 0 then ⟨"0", 1, ∅⟩
          else if n = 1 then ⟨"1", 1, ∅⟩ else default)
          ((buildCounts (fun n => if n = 0 then ⟨"0", 1, ∅⟩
            else if n = 1 then ⟨"1", 1, ∅⟩ else default) [0, 1]
            (∅, fun _ => 0)).2 t) t))) := by
  constructor
  · decide
  · have h := mismatch_reported_first (fun n => if n = 0 then ⟨"0", 1, ∅⟩
      else if n = 1 then ⟨"1", 1, ∅⟩ else default) ⟨[0, 1], 2⟩ true (by decide)
    simpa using h

/-- C1: for a nonempty graph whose tasks were each registered once (no
duplicates, count consistent) and whose downstream links stay inside the
graph, `validate` returns success — true with an empty diagnostic — if and only
if every task's declared upstream count equals its number of distinct incoming
downstream edges and the downstream-link digraph is acyclic. -/
theorem validate_success_iff (σ : Store) (g : TaskGraph) (d : Bool)
    (hne : g.tasks ≠ []) (hnd : g.tasks.Nodup)
    (hcl : ∀ t ∈ g.tasks, ∀ b ∈ (σ t).downstream, b ∈ g.tasks)
    (hcount : g.taskCount = g.tasks.length) :
    validate σ g d = (true, "") ↔
      ((∀ t ∈ g.tasks, (σ t).upstreamCount = realUpstreamCount σ g t) ∧
        Acyclic σ g) := by
  constructor
  · intro hsucc
    have hcounts : ∀ t ∈ g.tasks, (σ t).upstreamCount = realUpstreamCount σ g t := by
      by_contra hc
      have hml : mismatchList σ g ≠ [] :=
        fun h => hc ((counts_ok_iff σ g).1 h)
      rw [validate_mismatch_eq σ g d hml] at hsucc
      exact absurd (congrArg Prod.fst hsucc) (by simp)
    refine ⟨hcounts, ?_⟩
    intro x hx
    obtain ⟨C, hxC, hCV, hCp⟩ := cycle_set_of_transGen σ g.tasks hx
    have hCin : ∀ v ∈ C, ∃ u ∈ C, v ∈ (σ u).downstream := by
      intro v hv
      rcases hCp v hv with h | h
      · exact h
      · exact ⟨x, hxC, h⟩
    have hok := (counts_ok_iff σ g).2 hcounts
    by_cases hroots : g.tasks.filter (fun t => (σ t).upstreamCount = 0) = []
    · rw [validate_no_source σ g d hok hroots] at hsucc
      exact absurd (congrArg Prod.fst hsucc) (by simp)
    · by_cases hsinks : (g.tasks.filter (fun t => (σ t).downstream = ∅)).length = 0
      · rw [validate_no_sink σ g d hok hroots hsinks] at hsucc
        exact absurd (congrArg Prod.fst hsucc) (by simp)
      · rw [validate_eq_kahn σ g d hok hroots hsinks] at hsucc
        have hdisj : ∀ v ∈ C, v ∉ ([] : List Nat) ∧
            v ∉ g.tasks.filter (fun t => (σ t).upstreamCount = 0) := by
          intro v hv
          refine ⟨by simp, ?_⟩
          intro hvr
          have hv0 : (σ v).upstreamCount = 0 := by
            have := (List.mem_filter.1 hvr).2
            simpa using this
          obtain ⟨u, huC, hu⟩ := hCin v hv
          have hpos : 0 < g.tasks.countP (fun s => decide (v ∈ (σ s).downstream)) :=
            List.countP_pos_iff.2 ⟨u, hCV u huC, by simpa using hu⟩
          have h2 := hcounts v (hCV v hv)
          rw [hv0] at h2
          unfold realUpstreamCount at h2
          omega
        have hfalse := kahn_stuck σ g.tasks hnd hcl C ⟨x, hxC⟩ hCV hCin d
          g.taskCount [] (g.tasks.filter (fun t => (σ t).upstreamCount = 0))
          (buildCounts σ g.tasks (∅, fun _ => 0)).1
          (fun v => if v ∈ (buildCounts σ g.tasks (∅, fun _ => 0)).1
            then ((σ v).upstreamCount : Int)
            else (buildCounts σ g.tasks (∅, fun _ => 0)).2 v)
          (initial_KInv σ g hnd hcounts) (by simpa using hcount) hdisj
        rw [hsucc] at hfalse
        simp at hfalse
  · rintro ⟨hcounts, hacyc⟩
    have hok := (counts_ok_iff σ g).2 hcounts
    rw [validate_eq_kahn σ g d hok (roots_exist σ g hne hcounts hacyc)
      (sinks_exist σ g hne hcl hacyc)]
    exact kahn_completes σ g.tasks hnd hcl hacyc d g.taskCount []
      (g.tasks.filter (fun t => (σ t).upstreamCount = 0))
      (buildCounts σ g.tasks (∅, fun _ => 0)).1
      (fun v => if v ∈ (buildCounts σ g.tasks (∅, fun _ => 0)).1
        then ((σ v).upstreamCount : Int)
        else (buildCounts σ g.tasks (∅, fun _ => 0)).2 v)
      (initial_KInv σ g hnd hcounts) (by simpa using hcount)

/-- C1 witness: the two-task chain 0 → 1 with consistent counts. -/
theorem validate_success_iff_witness :
    (([0, 1] : List Nat) ≠ [] ∧ ([0, 1] : List Nat).Nodup ∧
      (∀ t ∈ ([0, 1] : List Nat),
        ∀ b ∈ ((fun n => if n = 0 then ⟨"0", 0, {1}⟩
          else if n = 1 then ⟨"1", 1, ∅⟩ else default : Store) t).downstream,
          b ∈ ([0, 1] : List Nat)) ∧
      (⟨[0, 1], 2⟩ : TaskGraph).taskCount = (⟨[0, 1], 2⟩ : TaskGraph).tasks.length) ∧
    (validate (fun n => if n = 0 then ⟨"0", 0, {1}⟩
        else if n = 1 then ⟨"1", 1, ∅⟩ else default) ⟨[0, 1], 2⟩ true = (true, "") ↔
      ((∀ t ∈ (⟨[0, 1], 2⟩ : TaskGraph).tasks,
        ((fun n => if n = 0 then ⟨"0", 0, {1}⟩
          else if n = 1 then ⟨"1", 1, ∅⟩ else default : Store) t).upstreamCount =
          realUpstreamCount (fun n => if n = 0 then ⟨"0", 0, {1}⟩
            else if n = 1 then ⟨"1", 1, ∅⟩ else default) ⟨[0, 1], 2⟩ t) ∧
        Acyclic (fun n => if n = 0 then ⟨"0", 0, {1}⟩
          else if n = 1 then ⟨"1", 1, ∅⟩ else default) ⟨[0, 1], 2⟩)) :=
  ⟨⟨by decide, by decide, by decide, by decide⟩,
    validate_success_iff (fun n => if n = 0 then ⟨"0", 0, {1}⟩
        else if n = 1 then ⟨"1", 1, ∅⟩ else default) ⟨[0, 1], 2⟩ true
      (by decide) (by decide) (by decide) (by decide)⟩

end Cppkit
